import Mathlib

/-!
Shallow embedding of the MarketV-Lookup price-comparison core
(src/utils/matching.ts, src/utils/math.ts, src/App.tsx, src/types.ts).

JavaScript numbers are modelled as exact rationals (ℚ); strings as Lean
strings processed character by character (JS `toLowerCase` acts per
character on the ASCII range relevant here).
-/

/-- Embeds `NORMALIZATION_RULES` of src/utils/matching.ts: the static
abbreviation/unit expansion table, as an association list in source order. -/
def NORMALIZATION_RULES : List (String × String) :=
  [("kg", "kilogram"),
   ("g", "gram"),
   ("ml", "milliliter"),
   ("l", "liter"),
   ("pu", "polyurethane"),
   ("qty", "quantity"),
   ("pcs", "pieces")]

/-- Embeds `STOP_WORDS` of src/utils/matching.ts. -/
def STOP_WORDS : List String :=
  ["premium", "high", "quality", "original", "authentic", "top", "grade",
   "the", "and", "for", "with"]

/-- Characters matched by the JS regex class `\s` (the ones representable
here; all act purely as token separators). -/
def isJsSpace (c : Char) : Bool :=
  c = ' ' || c = '\t' || c = '\n' || c = '\r' || c = '\x0b' || c = '\x0c' ||
  c = '\u00A0' || c = '\uFEFF'

/-- Step 1 of `normalizeText`: the replacement applied by
`.replace(/[^a-z0-9\s]/g, ' ')` to one (already lowercased) character. -/
def cleanChar (c : Char) : Char :=
  if ('a' ≤ c && c ≤ 'z') || ('0' ≤ c && c ≤ '9') || isJsSpace c then c else ' '

/-- Step 2 of `normalizeText`: `clean.split(/\s+/)` modelled as splitting at
every whitespace character (the subsequent `.filter(t => t.length > 0)` of the
source discards the empty fragments either way). -/
def splitChars (cs : List Char) : List (List Char) :=
  cs.foldr
    (fun c acc =>
      if isJsSpace c then [] :: acc
      else
        match acc with
        | [] => [[c]]
        | t :: ts => (c :: t) :: ts)
    []

/-- A value in the token array of `normalizeText`. The lookup
`NORMALIZATION_RULES[t]` is a JS plain-object property read, which consults
the prototype chain: besides the seven own keys, the inherited properties of
`Object.prototype` are reachable. A token consists of lowercase ASCII letters
and digits only, and `constructor` is the one `Object.prototype` property
whose name does (every other name holds an uppercase letter or underscores),
so a token value is either a string or the `Object.prototype.constructor`
function. -/
inductive Token where
  | str : String → Token
  | objectConstructor : Token
deriving DecidableEq, Repr

/-- The string a token coerces to in JS string contexts such as
`/\d/.test(t)`: a string coerces to itself, the constructor function to its
source form `function Object() \x7b [native code] \x7d`. -/
def Token.coerceString : Token → String
  | .str s => s
  | .objectConstructor => "function Object() \x7b [native code] \x7d"

/-- The JS `.length` property read by the sort comparator: the character
count of a string, and the arity of a function — `Object.length` is 1. -/
def Token.lengthProp : Token → Nat
  | .str s => s.length
  | .objectConstructor => 1

/-- The property read `NORMALIZATION_RULES[t]` including the prototype
chain: an own key returns its (string) value, the key `constructor` reaches
the inherited `Object.prototype.constructor`, every other token-shaped key is
undefined. -/
def rulesGet (t : String) : Option Token :=
  match NORMALIZATION_RULES.lookup t with
  | some v => some (Token.str v)
  | none => if t = "constructor" then some Token.objectConstructor else none

/-- Step 3 of `normalizeText`: `NORMALIZATION_RULES[t] || t` — the looked-up
value when the read yields one (all reachable values are truthy), the token
itself otherwise (`undefined` is falsy). -/
def expandToken (t : String) : Token :=
  (rulesGet t).getD (Token.str t)

/-- The membership test `STOP_WORDS.has(t)` of step 4: a `Set` of strings
never contains the function token. -/
def isStopWord : Token → Bool
  | .str s => STOP_WORDS.contains s
  | .objectConstructor => false

/-- The test `/\d/.test(t)` of the sort comparator, applied to the string
the token coerces to. -/
def hasDigit (t : Token) : Bool :=
  t.coerceString.data.any fun c => '0' ≤ c && c ≤ '9'

/-- The sort comparator of step 5 of `normalizeText`, returning the sign
convention of a JS comparator as an integer; `a.length`/`b.length` are the
JS `.length` property reads. -/
def cmpTokens (a b : Token) : Int :=
  if hasDigit a && !hasDigit b then -1
  else if !hasDigit a && hasDigit b then 1
  else (b.lengthProp : Int) - (a.lengthProp : Int)

/-- The ordering induced by `cmpTokens`: `a` may come before `b`. -/
def tokenOrder (a b : Token) : Prop :=
  cmpTokens a b ≤ 0

instance : DecidableRel tokenOrder := fun a b =>
  inferInstanceAs (Decidable (cmpTokens a b ≤ 0))

/-- Embeds `normalizeText` of src/utils/matching.ts: lowercase, replace
non-alphanumeric, non-whitespace characters by spaces, tokenize, expand
abbreviations, drop stop words, sort by the importance comparator (JS
`Array.prototype.sort` with a consistent comparator; `insertionSort` realises
the same ordering). -/
def normalizeText (text : String) : List Token :=
  if text = "" then []
  else
    let clean := (text.data.map Char.toLower).map cleanChar
    let tokens := ((splitChars clean).map (fun t => String.mk t)).filter
      (fun t => t.length > 0)
    let tokens := tokens.map expandToken
    let tokens := tokens.filter (fun t => !(isStopWord t))
    List.insertionSort tokenOrder tokens

/-- C1 counterexample: the two normalizations differ even as multisets,
because `500ml` stays a single token that the exact-match table leaves
unexpanded. -/
theorem c1_counterexample :
    normalizeText "Super-Glue 500ML" =
      [Token.str "500ml", Token.str "super", Token.str "glue"] ∧
    normalizeText "super glue 500 ml" =
      [Token.str "500", Token.str "milliliter", Token.str "super",
       Token.str "glue"] ∧
    ¬ (normalizeText "Super-Glue 500ML").Perm
        (normalizeText "super glue 500 ml") := by
  refine ⟨by decide, by decide, ?_⟩
  intro h
  have := h.length_eq
  simp only [show normalizeText "Super-Glue 500ML" =
      [Token.str "500ml", Token.str "super", Token.str "glue"] by decide,
    show normalizeText "super glue 500 ml" =
      [Token.str "500", Token.str "milliliter", Token.str "super",
       Token.str "glue"] by decide] at this
  simp at this

/-- C1 amended: with the unit written as its own token, case and punctuation
differences do not matter: `normalize("Super-Glue 500 ML")` and
`normalize("super glue 500 ml")` produce the same token sequence (hence the
same multiset). -/
theorem c1_amended :
    normalizeText "Super-Glue 500 ML" = normalizeText "super glue 500 ml" := by
  decide

/-- C2 counterexample: the token `constructor` matches none of the seven
table keys, yet the expansion step does not pass it through as the same
string — the plain-object read hits the inherited, truthy
`Object.prototype.constructor` and replaces the token by that function, as
the run of `normalize` on the text `constructor` shows end to end. -/
theorem c2_counterexample :
    NORMALIZATION_RULES.lookup "constructor" = none ∧
    expandToken "constructor" = Token.objectConstructor ∧
    Token.objectConstructor ≠ Token.str "constructor" ∧
    normalizeText "constructor" = [Token.objectConstructor] := by
  refine ⟨by decide, by decide, by decide, by decide⟩

/-- C2 amended: the expansion step replaces a token exactly equal to one of
the seven table keys by its expansion and passes every other token through
unchanged — except the token `constructor`, which the prototype-chain lookup
replaces by the inherited `Object.prototype.constructor` function. -/
theorem c2_expansion_characterization (t : String) :
    expandToken t =
      if t = "kg" then Token.str "kilogram"
      else if t = "g" then Token.str "gram"
      else if t = "ml" then Token.str "milliliter"
      else if t = "l" then Token.str "liter"
      else if t = "pu" then Token.str "polyurethane"
      else if t = "qty" then Token.str "quantity"
      else if t = "pcs" then Token.str "pieces"
      else if t = "constructor" then Token.objectConstructor
      else Token.str t := by
  by_cases h1 : t = "kg"
  · subst h1
    decide
  rw [if_neg h1]
  by_cases h2 : t = "g"
  · subst h2
    decide
  rw [if_neg h2]
  by_cases h3 : t = "ml"
  · subst h3
    decide
  rw [if_neg h3]
  by_cases h4 : t = "l"
  · subst h4
    decide
  rw [if_neg h4]
  by_cases h5 : t = "pu"
  · subst h5
    decide
  rw [if_neg h5]
  by_cases h6 : t = "qty"
  · subst h6
    decide
  rw [if_neg h6]
  by_cases h7 : t = "pcs"
  · subst h7
    decide
  rw [if_neg h7]
  by_cases h8 : t = "constructor"
  · subst h8
    decide
  rw [if_neg h8]
  have hl : NORMALIZATION_RULES.lookup t = none := by
    simp only [NORMALIZATION_RULES, List.lookup,
      beq_eq_false_iff_ne.mpr h1, beq_eq_false_iff_ne.mpr h2,
      beq_eq_false_iff_ne.mpr h3, beq_eq_false_iff_ne.mpr h4,
      beq_eq_false_iff_ne.mpr h5, beq_eq_false_iff_ne.mpr h6,
      beq_eq_false_iff_ne.mpr h7]
  simp [expandToken, rulesGet, hl, h8]

/-- Embeds `calculateSimilarity` of src/utils/matching.ts: 0 on an empty
input, otherwise the count of distinct tokens of `A` present in `B` (the JS
`Set` loop; `dedup` keeps one copy of each token, as the `Set` does) divided by
the number of distinct tokens of `A ++ B`, times 100. -/
def calculateSimilarity (tokensA tokensB : List String) : ℚ :=
  if tokensA.length = 0 || tokensB.length = 0 then 0
  else
    let inter := (tokensA.dedup.filter (fun t => tokensB.contains t)).length
    let union := (tokensA ++ tokensB).dedup.length
    ((inter : ℚ) / (union : ℚ)) * 100

lemma inter_count_eq_card (A B : List String) :
    (A.dedup.filter (fun t => B.contains t)).length =
      (A.toFinset ∩ B.toFinset).card := by
  have hnd : (A.dedup.filter (fun t => B.contains t)).Nodup :=
    A.nodup_dedup.filter _
  rw [← List.toFinset_card_of_nodup hnd]
  congr 1
  ext x
  simp [List.mem_filter, List.mem_dedup]

lemma union_count_eq_card (A B : List String) :
    (A ++ B).dedup.length = (A.toFinset ∪ B.toFinset).card := by
  rw [← List.card_toFinset, List.toFinset_append]

/-- C3: the scorer returns 0 when either sequence is empty and otherwise the
Jaccard index of the two sequences viewed as sets, as a percentage; duplicates
inside a sequence count once. -/
theorem c3_similarity_is_jaccard (A B : List String) :
    calculateSimilarity A B =
      if A = [] ∨ B = [] then 0
      else ((A.toFinset ∩ B.toFinset).card : ℚ) /
             ((A.toFinset ∪ B.toFinset).card : ℚ) * 100 := by
  simp only [calculateSimilarity, List.length_eq_zero, Bool.or_eq_true,
    decide_eq_true_eq]
  by_cases hA : A = []
  · simp [hA]
  · by_cases hB : B = []
    · simp [hB]
    · simp only [hA, hB, or_self, if_false, if_neg (by tauto : ¬(A = [] ∨ B = []))]
      rw [inter_count_eq_card, union_count_eq_card]

/-- C8: a non-empty token sequence always scores 100 against itself, also in
the presence of duplicate tokens. -/
theorem c8_self_similarity (A : List String) (h : A ≠ []) :
    calculateSimilarity A A = 100 := by
  have hlen : ¬ A.length = 0 := by simpa [List.length_eq_zero] using h
  simp only [calculateSimilarity, hlen, Bool.or_self, decide_eq_true_eq,
    if_neg hlen, decide_eq_false_iff_not]
  have hfil : A.dedup.filter (fun t => A.contains t) = A.dedup := by
    apply List.filter_eq_self.mpr
    intro a ha
    simpa using List.mem_dedup.mp ha
  have huni : (A ++ A).dedup.length = A.dedup.length := by
    rw [← List.card_toFinset, ← List.card_toFinset, List.toFinset_append,
      Finset.union_self]
  have hpos : A.dedup.length ≠ 0 := by
    simp [List.length_eq_zero, List.dedup_eq_nil, h]
  rw [hfil, huni]
  rw [div_self (by exact_mod_cast hpos)]
  norm_num

/-- C8 witness at a concrete duplicated sequence. -/
theorem c8_self_similarity_witness :
    calculateSimilarity ["a", "a", "b"] ["a", "a", "b"] = 100 :=
  c8_self_similarity ["a", "a", "b"] (by decide)

/-- Embeds `PricingStats` of src/types.ts (numeric fields as ℚ, the count as
ℕ since it is always an array length). -/
structure PricingStats where
  min : ℚ
  max : ℚ
  avg : ℚ
  count : ℕ
  varianceFromAvg : ℚ
  varianceFromMin : ℚ
deriving DecidableEq, Repr

/-- Embeds `calculateStats` of src/utils/math.ts: all-zero stats on an empty
price list; otherwise `Math.min`/`Math.max` over the list (folds over a
non-empty list), `reduce((a, b) => a + b, 0)` for the sum, and the two
percentage variances. -/
def calculateStats (supplierPrice : ℚ) (marketPrices : List ℚ) : PricingStats :=
  match marketPrices with
  | [] =>
    { min := 0, max := 0, avg := 0, count := 0,
      varianceFromAvg := 0, varianceFromMin := 0 }
  | p :: ps =>
    let mn := ps.foldl min p
    let mx := ps.foldl max p
    let sum := (p :: ps).foldl (· + ·) 0
    let avg := sum / ((p :: ps).length : ℚ)
    { min := mn, max := mx, avg := avg, count := (p :: ps).length,
      varianceFromAvg := ((supplierPrice - avg) / avg) * 100,
      varianceFromMin := ((supplierPrice - mn) / mn) * 100 }

lemma foldl_min_le_init (l : List ℚ) (a : ℚ) : l.foldl min a ≤ a := by
  induction l generalizing a with
  | nil => simp
  | cons x xs ih =>
    calc (x :: xs).foldl min a = xs.foldl min (min a x) := rfl
    _ ≤ min a x := ih _
    _ ≤ a := min_le_left _ _

lemma foldl_min_le_mem (l : List ℚ) (a : ℚ) :
    ∀ x ∈ l, l.foldl min a ≤ x := by
  induction l generalizing a with
  | nil => simp
  | cons y ys ih =>
    intro x hx
    rcases List.mem_cons.mp hx with h | h
    · subst h
      calc (x :: ys).foldl min a = ys.foldl min (min a x) := rfl
      _ ≤ min a x := foldl_min_le_init _ _
      _ ≤ x := min_le_right _ _
    · exact ih (min a y) x h

lemma foldl_min_mem (l : List ℚ) (a : ℚ) : l.foldl min a ∈ a :: l := by
  induction l generalizing a with
  | nil => simp
  | cons x xs ih =>
    have h := ih (min a x)
    rcases List.mem_cons.mp h with h1 | h1
    · rcases min_choice a x with hm | hm
      · exact List.mem_cons.mpr (Or.inl (by simpa [hm] using h1))
      · refine List.mem_cons.mpr (Or.inr (List.mem_cons.mpr (Or.inl ?_)))
        simpa [hm] using h1
    · exact List.mem_cons.mpr (Or.inr (List.mem_cons.mpr (Or.inr h1)))

lemma init_le_foldl_max (l : List ℚ) (a : ℚ) : a ≤ l.foldl max a := by
  induction l generalizing a with
  | nil => simp
  | cons x xs ih =>
    calc a ≤ max a x := le_max_left _ _
    _ ≤ xs.foldl max (max a x) := ih _
    _ = (x :: xs).foldl max a := rfl

lemma mem_le_foldl_max (l : List ℚ) (a : ℚ) :
    ∀ x ∈ l, x ≤ l.foldl max a := by
  induction l generalizing a with
  | nil => simp
  | cons y ys ih =>
    intro x hx
    rcases List.mem_cons.mp hx with h | h
    · subst h
      calc x ≤ max a x := le_max_right _ _
      _ ≤ ys.foldl max (max a x) := init_le_foldl_max _ _
      _ = (x :: ys).foldl max a := rfl
    · exact ih (max a y) x h

lemma foldl_max_mem (l : List ℚ) (a : ℚ) : l.foldl max a ∈ a :: l := by
  induction l generalizing a with
  | nil => simp
  | cons x xs ih =>
    have h := ih (max a x)
    rcases List.mem_cons.mp h with h1 | h1
    · rcases max_choice a x with hm | hm
      · exact List.mem_cons.mpr (Or.inl (by simpa [hm] using h1))
      · refine List.mem_cons.mpr (Or.inr (List.mem_cons.mpr (Or.inl ?_)))
        simpa [hm] using h1
    · exact List.mem_cons.mpr (Or.inr (List.mem_cons.mpr (Or.inr h1)))

lemma foldl_add_init (l : List ℚ) (a : ℚ) : l.foldl (· + ·) a = a + l.sum := by
  induction l generalizing a with
  | nil => simp
  | cons x xs ih => simp [List.foldl_cons, ih, add_assoc]

lemma mul_length_le_sum (m : ℚ) :
    ∀ l : List ℚ, (∀ x ∈ l, m ≤ x) → m * (l.length : ℚ) ≤ l.sum
  | [], _ => by simp
  | x :: xs, h => by
    have h1 : m ≤ x := h x (List.mem_cons_self x xs)
    have h2 := mul_length_le_sum m xs fun y hy => h y (List.mem_cons_of_mem x hy)
    have h3 : ((x :: xs).length : ℚ) = (xs.length : ℚ) + 1 := by
      push_cast [List.length_cons]
      ring
    rw [h3, List.sum_cons, mul_add, mul_one]
    linarith

lemma sum_le_mul_length (m : ℚ) :
    ∀ l : List ℚ, (∀ x ∈ l, x ≤ m) → l.sum ≤ m * (l.length : ℚ)
  | [], _ => by simp
  | x :: xs, h => by
    have h1 : x ≤ m := h x (List.mem_cons_self x xs)
    have h2 := sum_le_mul_length m xs fun y hy => h y (List.mem_cons_of_mem x hy)
    have h3 : ((x :: xs).length : ℚ) = (xs.length : ℚ) + 1 := by
      push_cast [List.length_cons]
      ring
    rw [h3, List.sum_cons, mul_add, mul_one]
    linarith

/-- C5: the aggregator returns the all-zero record on an empty price list, its
count always equals the length of the price list, and a zero count forces the
all-zero record (the rational model has no NaN or infinity, so every field is
a genuine number). -/
theorem c5_stats_empty_sentinel :
    (∀ p : ℚ, calculateStats p [] =
      { min := 0, max := 0, avg := 0, count := 0,
        varianceFromAvg := 0, varianceFromMin := 0 }) ∧
    (∀ (p : ℚ) (ps : List ℚ), (calculateStats p ps).count = ps.length) ∧
    (∀ (p : ℚ) (ps : List ℚ), (calculateStats p ps).count = 0 →
      calculateStats p ps =
        { min := 0, max := 0, avg := 0, count := 0,
          varianceFromAvg := 0, varianceFromMin := 0 }) := by
  refine ⟨fun p => rfl, fun p ps => ?_, fun p ps h => ?_⟩
  · cases ps <;> rfl
  · cases ps with
    | nil => rfl
    | cons q qs => simp [calculateStats] at h

/-- C6: on a non-empty price list the aggregator returns the true minimum
(a member of the list bounding it below), the true maximum, the arithmetic
mean `sum / length`, the list length as count, the two percentage variance
formulas over those values, and in particular
`aggregate(50, [40, 60]) = {min 40, max 60, avg 50, count 2, 0, 25}`. -/
theorem c6_stats_nonempty (p : ℚ) (ps : List ℚ) (h : ps ≠ []) :
    ((calculateStats p ps).min ∈ ps ∧ (∀ x ∈ ps, (calculateStats p ps).min ≤ x)) ∧
    ((calculateStats p ps).max ∈ ps ∧ (∀ x ∈ ps, x ≤ (calculateStats p ps).max)) ∧
    (calculateStats p ps).avg = ps.sum / (ps.length : ℚ) ∧
    (calculateStats p ps).count = ps.length ∧
    (calculateStats p ps).varianceFromAvg =
      ((p - ps.sum / (ps.length : ℚ)) / (ps.sum / (ps.length : ℚ))) * 100 ∧
    (calculateStats p ps).varianceFromMin =
      ((p - (calculateStats p ps).min) / (calculateStats p ps).min) * 100 ∧
    calculateStats 50 [40, 60] =
      { min := 40, max := 60, avg := 50, count := 2,
        varianceFromAvg := 0, varianceFromMin := 25 } := by
  match ps with
  | [] => exact absurd rfl h
  | q :: qs =>
    refine ⟨⟨?_, ?_⟩, ⟨?_, ?_⟩, ?_, rfl, ?_, rfl, by norm_num [calculateStats]⟩
    · simpa [calculateStats] using foldl_min_mem qs q
    · intro x hx
      rcases List.mem_cons.mp hx with h1 | h1
      · subst h1
        simpa [calculateStats] using foldl_min_le_init qs x
      · simpa [calculateStats] using foldl_min_le_mem qs q x h1
    · simpa [calculateStats] using foldl_max_mem qs q
    · intro x hx
      rcases List.mem_cons.mp hx with h1 | h1
      · subst h1
        simpa [calculateStats] using init_le_foldl_max qs x
      · simpa [calculateStats] using mem_le_foldl_max qs q x h1
    · simp [calculateStats, foldl_add_init]
    · simp [calculateStats, foldl_add_init]

/-- C6 witness at the concrete scenario of the claim. -/
theorem c6_stats_nonempty_witness :
    ((calculateStats 50 [40, 60]).min ∈ [(40 : ℚ), 60] ∧
      (∀ x ∈ [(40 : ℚ), 60], (calculateStats 50 [40, 60]).min ≤ x)) ∧
    ((calculateStats 50 [40, 60]).max ∈ [(40 : ℚ), 60] ∧
      (∀ x ∈ [(40 : ℚ), 60], x ≤ (calculateStats 50 [40, 60]).max)) ∧
    (calculateStats 50 [40, 60]).avg = ([(40 : ℚ), 60].sum) / (([(40 : ℚ), 60].length : ℚ)) ∧
    (calculateStats 50 [40, 60]).count = [(40 : ℚ), 60].length ∧
    (calculateStats 50 [40, 60]).varianceFromAvg =
      ((50 - ([(40 : ℚ), 60].sum) / (([(40 : ℚ), 60].length : ℚ))) /
        (([(40 : ℚ), 60].sum) / (([(40 : ℚ), 60].length : ℚ)))) * 100 ∧
    (calculateStats 50 [40, 60]).varianceFromMin =
      ((50 - (calculateStats 50 [40, 60]).min) / (calculateStats 50 [40, 60]).min) * 100 ∧
    calculateStats 50 [40, 60] =
      { min := 40, max := 60, avg := 50, count := 2,
        varianceFromAvg := 0, varianceFromMin := 25 } :=
  c6_stats_nonempty 50 [40, 60] (by decide)

/-- C10: on a non-empty price list the aggregated minimum is at most the
average and the average is at most the maximum. -/
theorem c10_min_le_avg_le_max (p : ℚ) (ps : List ℚ) (h : ps ≠ []) :
    (calculateStats p ps).min ≤ (calculateStats p ps).avg ∧
    (calculateStats p ps).avg ≤ (calculateStats p ps).max := by
  match ps with
  | [] => exact absurd rfl h
  | q :: qs =>
    have hn : (0 : ℚ) < (((q :: qs).length : ℕ) : ℚ) := by
      exact_mod_cast Nat.succ_pos qs.length
    have hmin1 : ∀ x ∈ q :: qs, qs.foldl min q ≤ x := by
      intro x hx
      rcases List.mem_cons.mp hx with h1 | h1
      · subst h1
        exact foldl_min_le_init qs x
      · exact foldl_min_le_mem qs q x h1
    have hmax1 : ∀ x ∈ q :: qs, x ≤ qs.foldl max q := by
      intro x hx
      rcases List.mem_cons.mp hx with h1 | h1
      · subst h1
        exact init_le_foldl_max qs x
      · exact mem_le_foldl_max qs q x h1
    have hlow := mul_length_le_sum (qs.foldl min q) (q :: qs) hmin1
    have hhigh := sum_le_mul_length (qs.foldl max q) (q :: qs) hmax1
    have havg : (calculateStats p (q :: qs)).avg =
        ((q :: qs).sum) / ((((q :: qs).length : ℕ) : ℚ)) := by
      simp [calculateStats, foldl_add_init]
    constructor
    · rw [havg, show (calculateStats p (q :: qs)).min = qs.foldl min q from rfl,
        le_div_iff₀ hn]
      exact hlow
    · rw [havg, show (calculateStats p (q :: qs)).max = qs.foldl max q from rfl,
        div_le_iff₀ hn]
      exact hhigh

/-- C10 witness at the concrete scenario price 50, list `[40, 60]`. -/
theorem c10_min_le_avg_le_max_witness :
    (calculateStats 50 [40, 60]).min ≤ (calculateStats 50 [40, 60]).avg ∧
    (calculateStats 50 [40, 60]).avg ≤ (calculateStats 50 [40, 60]).max :=
  c10_min_le_avg_le_max 50 [40, 60] (by decide)

/-- Embeds `SupplierProduct` of src/types.ts (the matcher's reference item). -/
structure SupplierProduct where
  id : String
  code : String
  description : String
  price : ℚ
  currency : String
  incoterm : Option String
  moq : Option String
  normalizedTokens : List String
deriving DecidableEq, Repr

/-- Embeds `MarketProduct` of src/types.ts (the matcher's observed item). -/
structure MarketProduct where
  id : String
  description : String
  price : ℚ
  currency : String
  source : Option String
  country : Option String
  normalizedTokens : List String
deriving DecidableEq, Repr

/-- Embeds `MatchResult` of src/types.ts (a MatchEdge). -/
structure MatchResult where
  supplierId : String
  marketId : String
  confidence : ℚ
  reason : Option String
deriving DecidableEq, Repr

/-- Embeds the matching core of `performMatching` in src/App.tsx (identical in
src/unnamed/part_000): the nested `forEach` loops that push one result per
(supplier, market) pair whose similarity exceeds 10; the surrounding React
state updates and the `setTimeout` scheduling are host-side effects outside
the core. -/
def performMatching (sups : List SupplierProduct) (mkts : List MarketProduct) :
    List MatchResult :=
  sups.flatMap fun sup =>
    mkts.filterMap fun mkt =>
      let score := calculateSimilarity sup.normalizedTokens mkt.normalizedTokens
      if score > 10 then
        some { supplierId := sup.id, marketId := mkt.id, confidence := score,
               reason := none }
      else none

lemma mem_performMatching (sups : List SupplierProduct)
    (mkts : List MarketProduct) (e : MatchResult) :
    e ∈ performMatching sups mkts ↔
      ∃ sup ∈ sups, ∃ mkt ∈ mkts,
        10 < calculateSimilarity sup.normalizedTokens mkt.normalizedTokens ∧
        e = { supplierId := sup.id, marketId := mkt.id,
              confidence := calculateSimilarity sup.normalizedTokens
                mkt.normalizedTokens,
              reason := none } := by
  simp only [performMatching, List.mem_flatMap, List.mem_filterMap]
  constructor
  · rintro ⟨sup, hsup, mkt, hmkt, hif⟩
    by_cases hs : 10 < calculateSimilarity sup.normalizedTokens mkt.normalizedTokens
    · refine ⟨sup, hsup, mkt, hmkt, hs, ?_⟩
      rw [if_pos hs] at hif
      exact (Option.some_inj.mp hif).symm
    · rw [if_neg hs] at hif
      exact absurd hif Option.noConfusion
  · rintro ⟨sup, hsup, mkt, hmkt, hs, he⟩
    exact ⟨sup, hsup, mkt, hmkt, by rw [if_pos hs, he]⟩

/-- A reference item carrying ten distinct tokens, of which the observed item
`mktTen` shares exactly one: the Jaccard score of the pair is exactly 10. -/
def supTen : SupplierProduct :=
  { id := "s1", code := "c1", description := "ten tokens", price := 5,
    currency := "USD", incoterm := none, moq := none,
    normalizedTokens := ["a", "b", "c", "d", "e", "f", "g", "h", "i", "j"] }

/-- The observed item sharing one of `supTen`'s ten tokens. -/
def mktTen : MarketProduct :=
  { id := "m1", description := "one token", price := 6, currency := "USD",
    source := none, country := none, normalizedTokens := ["a"] }

/-- A reference item whose tokens coincide with `mktFull`'s: score 100. -/
def supFull : SupplierProduct :=
  { id := "s2", code := "c2", description := "standard valve", price := 10,
    currency := "USD", incoterm := none, moq := none,
    normalizedTokens := ["standard", "valve"] }

/-- The observed item with the same token set as `supFull`. -/
def mktFull : MarketProduct :=
  { id := "m2", description := "valve standard", price := 11, currency := "USD",
    source := none, country := none, normalizedTokens := ["standard", "valve"] }

lemma score_supTen_mktTen :
    calculateSimilarity supTen.normalizedTokens mktTen.normalizedTokens = 10 := by
  have h1 : ((["a", "b", "c", "d", "e", "f", "g", "h", "i", "j"] :
      List String).dedup.filter (fun t => (["a"] : List String).contains t)).length
      = 1 := by decide
  have h2 : (((["a", "b", "c", "d", "e", "f", "g", "h", "i", "j"] :
      List String) ++ ["a"]).dedup).length = 10 := by decide
  show calculateSimilarity ["a", "b", "c", "d", "e", "f", "g", "h", "i", "j"]
    ["a"] = 10
  rw [calculateSimilarity]
  rw [if_neg (by decide)]
  rw [h1, h2]
  norm_num

lemma performMatching_ten_eval : performMatching [supTen] [mktTen] = [] := by
  simp [performMatching, score_supTen_mktTen]

lemma score_supFull_mktFull :
    calculateSimilarity supFull.normalizedTokens mktFull.normalizedTokens
      = 100 := by
  have h1 : ((["standard", "valve"] : List String).dedup.filter
      (fun t => (["standard", "valve"] : List String).contains t)).length
      = 2 := by decide
  have h2 : (((["standard", "valve"] : List String) ++
      ["standard", "valve"]).dedup).length = 2 := by decide
  show calculateSimilarity ["standard", "valve"] ["standard", "valve"] = 100
  rw [calculateSimilarity]
  rw [if_neg (by decide)]
  rw [h1, h2]
  norm_num

lemma performMatching_full_eval :
    performMatching [supFull] [mktFull] =
      [{ supplierId := "s2", marketId := "m2", confidence := 100,
         reason := none }] := by
  simp only [performMatching, List.flatMap_cons, List.flatMap_nil,
    List.filterMap_cons, List.filterMap_nil, List.append_nil,
    score_supFull_mktFull]
  rw [if_pos (by norm_num)]
  rfl

/-- C4: a MatchEdge for a (reference, observed) pair is materialized exactly
when the pair's similarity is strictly above 10; concretely, a pair scoring
exactly 10 yields no edge and a pair scoring above 10 yields one. -/
theorem c4_floor_filtering :
    (∀ (sups : List SupplierProduct) (mkts : List MarketProduct)
        (e : MatchResult),
      e ∈ performMatching sups mkts ↔
        ∃ sup ∈ sups, ∃ mkt ∈ mkts,
          10 < calculateSimilarity sup.normalizedTokens mkt.normalizedTokens ∧
          e = { supplierId := sup.id, marketId := mkt.id,
                confidence := calculateSimilarity sup.normalizedTokens
                  mkt.normalizedTokens,
                reason := none }) ∧
    calculateSimilarity supTen.normalizedTokens mktTen.normalizedTokens = 10 ∧
    performMatching [supTen] [mktTen] = [] ∧
    10 < calculateSimilarity supFull.normalizedTokens mktFull.normalizedTokens ∧
    performMatching [supFull] [mktFull] =
      [{ supplierId := "s2", marketId := "m2", confidence := 100,
         reason := none }] := by
  refine ⟨mem_performMatching, score_supTen_mktTen, performMatching_ten_eval,
    ?_, performMatching_full_eval⟩
  rw [score_supFull_mktFull]
  norm_num

/-- C9: every produced MatchEdge references an existing reference item id and
an existing observed item id. -/
theorem c9_edges_resolve (sups : List SupplierProduct)
    (mkts : List MarketProduct) (e : MatchResult)
    (he : e ∈ performMatching sups mkts) :
    (∃ sup ∈ sups, e.supplierId = sup.id) ∧
    (∃ mkt ∈ mkts, e.marketId = mkt.id) := by
  rcases (mem_performMatching sups mkts e).mp he with
    ⟨sup, hsup, mkt, hmkt, _, he2⟩
  subst he2
  exact ⟨⟨sup, hsup, rfl⟩, ⟨mkt, hmkt, rfl⟩⟩

/-- C9 witness at a concrete matching run producing one edge. -/
theorem c9_edges_resolve_witness :
    (∃ sup ∈ [supFull],
      ({ supplierId := "s2", marketId := "m2", confidence := 100,
         reason := none } : MatchResult).supplierId = sup.id) ∧
    (∃ mkt ∈ [mktFull],
      ({ supplierId := "s2", marketId := "m2", confidence := 100,
         reason := none } : MatchResult).marketId = mkt.id) :=
  c9_edges_resolve [supFull] [mktFull] _
    (by rw [performMatching_full_eval]; exact List.mem_singleton.mpr rfl)

instance : IsTotal Token tokenOrder := by
  constructor
  intro a b
  unfold tokenOrder cmpTokens
  cases hda : hasDigit a <;> cases hdb : hasDigit b <;> simp <;> omega

instance : IsTrans Token tokenOrder := by
  constructor
  intro a b c hab hbc
  unfold tokenOrder cmpTokens at *
  cases hda : hasDigit a <;> cases hdb : hasDigit b <;> cases hdc : hasDigit c <;>
    simp_all <;> omega

/-- C7 counterexample: on the text `Constructor Anchor` the program returns
the string `anchor` followed by the `Object.prototype.constructor` function
(whose `.length` is its arity 1, so the comparator puts it last); reading
each token's length as the length of the string it coerces to, the digit-free
group goes from length 6 to length 35 — the lengths increase, refuting the
claimed ordering. -/
theorem c7_counterexample :
    normalizeText "Constructor Anchor" =
      [Token.str "anchor", Token.objectConstructor] ∧
    ¬ (normalizeText "Constructor Anchor").Pairwise (fun a b =>
        (hasDigit a = true ∧ hasDigit b = false) ∨
        (hasDigit a = hasDigit b ∧
          b.coerceString.length ≤ a.coerceString.length)) := by
  refine ⟨by decide, ?_⟩
  intro h
  rw [show normalizeText "Constructor Anchor" =
    [Token.str "anchor", Token.objectConstructor] by decide] at h
  rcases List.pairwise_cons.mp h with ⟨h1, -⟩
  have h2 := h1 Token.objectConstructor (List.mem_singleton.mpr rfl)
  revert h2
  decide

/-- C7 amended: in every normalized token sequence, tokens whose coerced
string contains a digit all come before tokens containing none, and within
each of the two groups the JS `.length` values the comparator reads (the
character count of a string token, the arity of the function token) are
non-increasing. -/
theorem c7_token_ordering_by_length_prop (text : String) :
    (normalizeText text).Pairwise fun a b =>
      (hasDigit a = true ∧ hasDigit b = false) ∨
      (hasDigit a = hasDigit b ∧ b.lengthProp ≤ a.lengthProp) := by
  unfold normalizeText
  split
  · simp
  · refine List.Pairwise.imp ?_ (List.sorted_insertionSort tokenOrder _)
    intro a b h
    revert h
    unfold tokenOrder cmpTokens
    cases hda : hasDigit a <;> cases hdb : hasDigit b <;> intro h <;>
      simp_all
